import Mathlib

/-!
# Verification of the LmsPs command-execution core (`src/lmsps/server.py`)

Shallow embedding of the pure core of `server.py`:

* `_trim`              — the result trimmer,
* `_get_env_int`, `_coerce_positive_int`, `_command_limits`,
  `_max_command_chars` — configuration parsing and argument coercion,
* `_decode_stream`, `_ensure_text` — the encoding normalizer,
* `_validate_command`  — the command validator,
* `tool_ps_run`        — the command-execution entry point,
* `tool_cd`, `tool_cwd` — the working-directory tools.

Modelling conventions:

* Python `bytes` are `List Nat` (each element a byte value `< 256`);
  Python `str` is Lean `String` (a list of Unicode scalar values, which is
  exactly what the decoders in this file can produce).
* A Python function that may raise is `Option`-valued (`none` = raises);
  `tool_ps_run`, whose uncaught exceptions are observable by the caller,
  returns `PyResult` (`ok` = returned value, `exn` = escaped exception).
* `os.environ` is a lookup function `String → Option String`;
  `locale.getpreferredencoding` is an optional extra decoder;
  the filesystem (`os.path.isdir`) is a predicate `String → Bool`;
  the outcome of `subprocess.run` is the `SpawnOutcome` parameter.
* Whether a `_log` call succeeds is the `logOk` flag of the context: `_log`
  has no exception handling of its own, so a failing write raises `OSError`
  at the call site.
-/

/-- Python `str.strip()` whitespace test, restricted to the ASCII whitespace
characters (space, tab, newline, carriage return, vertical tab, form feed).
Python also strips some further Unicode whitespace; that refinement is not
needed by any property proved here. -/
def pyIsSpace (c : Char) : Bool :=
  c = ' ' || c = '\t' || c = '\n' || c = '\r' || c = Char.ofNat 0x0b || c = Char.ofNat 0x0c

/-- Python `str.strip()` on a character list: drop whitespace from both ends. -/
def pyStripList (l : List Char) : List Char :=
  ((l.dropWhile pyIsSpace).reverse.dropWhile pyIsSpace).reverse

/-- Python `str.strip()` (no arguments). -/
def pyStrip (s : String) : String :=
  ⟨pyStripList s.data⟩

/-- Python `str.lstrip("﻿")`: remove every leading U+FEFF character. -/
def lstripFeff : List Char → List Char
  | [] => []
  | c :: rest => if c = Char.ofNat 0xFEFF then lstripFeff rest else c :: rest

/-- Digit-string to number, `none` when empty or a non-digit appears
(the digits part of Python `int(str)`). -/
def digitsToNat (l : List Char) : Option Nat :=
  if l = [] then none
  else l.foldl (fun acc c =>
    acc.bind (fun a => if c.isDigit then some (a * 10 + (c.toNat - 48)) else none)) (some 0)

/-- Python `int(s)` for a string: optional surrounding whitespace, an optional
sign, then a nonempty run of decimal digits; anything else raises `ValueError`
(= `none`).  Python additionally accepts single `_` digit separators; none of
the properties below depend on that extra case. -/
def pyInt (s : String) : Option Int :=
  match pyStripList s.data with
  | '-' :: ds => (digitsToNat ds).map (fun n => -(n : Int))
  | '+' :: ds => (digitsToNat ds).map (fun n => (n : Int))
  | ds => (digitsToNat ds).map (fun n => (n : Int))

/-- `_get_env_int(name, default, minimum=...)` from `server.py`: read an
environment variable, fall back to `default` when unset or unparsable, and
clamp to `minimum` when one is given. -/
def _get_env_int (env : String → Option String) (name : String) (default : Int)
    (minimum : Option Int) : Int :=
  match env name with
  | none => default
  | some raw =>
    match pyInt raw with
    | none => default
    | some value =>
      match minimum with
      | some m => if value < m then m else value
      | none => value

/-- `_coerce_positive_int(value, fallback)` from `server.py`.  The argument of
the Python function is an arbitrary object; its behaviour only depends on
whether the value is `None`, converts to an `int`, or makes `int()` raise. -/
inductive CoerceArg
  | noneA
  | intA (i : Int)
  | badA
  deriving DecidableEq

def _coerce_positive_int (value : CoerceArg) (fallback : Int) : Int :=
  match value with
  | .noneA => fallback
  | .badA => fallback
  | .intA candidate => if candidate ≤ 0 then fallback else candidate

/-- `_command_limits()` from `server.py`: `(timeout_seconds, max_trim_chars)`. -/
def _command_limits (env : String → Option String) : Int × Int :=
  (_get_env_int env "LMSPS_TIMEOUT_SEC" 30 (some 1),
   _get_env_int env "LMSPS_TRIM_CHARS" 500 (some 1))

/-- `_max_command_chars()` from `server.py`. -/
def _max_command_chars (env : String → Option String) : Int :=
  _get_env_int env "LMSPS_MAX_COMMAND_CHARS" 8192 (some 1)

/-- Python slicing `s[:n]` on a character list (negative `n` counts from the
end, clamped at zero). -/
def pySliceTo (l : List Char) (n : Int) : List Char :=
  if 0 ≤ n then l.take n.toNat else l.take ((l.length : Int) + n).toNat

/-- `_trim(s, n)` from `server.py`:
`s if len(s) <= n else s[:n] + f"\n...[trimmed {len(s)-n} chars]"`.
Lengths count characters (code points), exactly as Python `len` does. -/
def _trim (s : String) (n : Int) : String :=
  if (s.length : Int) ≤ n then s
  else ⟨pySliceTo s.data n⟩ ++ "\n...[trimmed " ++ toString ((s.length : Int) - n) ++ " chars]"

/-! ## UTF-8 codec (`bytes.decode("utf-8")` and friends) -/

/-- Is `b` a UTF-8 continuation byte (`0x80`–`0xBF`)? -/
def isCont (b : Nat) : Bool :=
  0x80 ≤ b && b ≤ 0xBF

/-- Second-byte constraint of a three-byte UTF-8 sequence with lead `b1`
(excludes overlong forms and surrogates, as Python's strict decoder does). -/
def cont3Ok (b1 b2 : Nat) : Bool :=
  isCont b2 && (b1 ≠ 0xE0 || 0xA0 ≤ b2) && (b1 ≠ 0xED || b2 ≤ 0x9F)

/-- Second-byte constraint of a four-byte UTF-8 sequence with lead `b1`. -/
def cont4Ok (b1 b2 : Nat) : Bool :=
  isCont b2 && (b1 ≠ 0xF0 || 0x90 ≤ b2) && (b1 ≠ 0xF4 || b2 ≤ 0x8F)

/-- Parse one UTF-8-encoded scalar value from the front of the buffer,
returning it and the remaining bytes; `none` when the buffer is empty or does
not start with a valid sequence (overlong forms and surrogates rejected, as
Python's strict decoder does). -/
def utf8DecodeOne : List Nat → Option (Char × List Nat)
  | [] => none
  | b1 :: rest =>
    if b1 < 0x80 then some (Char.ofNat b1, rest)
    else if 0xC2 ≤ b1 && b1 ≤ 0xDF then
      match rest with
      | b2 :: r =>
        if isCont b2 then some (Char.ofNat ((b1 - 0xC0) * 0x40 + (b2 - 0x80)), r)
        else none
      | [] => none
    else if 0xE0 ≤ b1 && b1 ≤ 0xEF then
      match rest with
      | b2 :: b3 :: r =>
        if cont3Ok b1 b2 && isCont b3 then
          some (Char.ofNat ((b1 - 0xE0) * 0x1000 + (b2 - 0x80) * 0x40 + (b3 - 0x80)), r)
        else none
      | _ => none
    else if 0xF0 ≤ b1 && b1 ≤ 0xF4 then
      match rest with
      | b2 :: b3 :: b4 :: r =>
        if cont4Ok b1 b2 && isCont b3 && isCont b4 then
          some (Char.ofNat ((b1 - 0xF0) * 0x40000 + (b2 - 0x80) * 0x1000
            + (b3 - 0x80) * 0x40 + (b4 - 0x80)), r)
        else none
      | _ => none
    else none

/-- Decoding loop: repeatedly parse one scalar.  The fuel argument only makes
the recursion structural; `utf8DecodeOne` consumes at least one byte per step
(`utf8DecodeOne_shrinks`), so any fuel `≥ length` gives the same result
(`decodeUtf8Loop_fuel_irrelevant`) and the `0` case is never reached from
`decodeUtf8`. -/
def decodeUtf8Loop : Nat → List Nat → Option (List Char)
  | _, [] => some []
  | 0, _ :: _ => none
  | fuel + 1, b1 :: rest =>
    match utf8DecodeOne (b1 :: rest) with
    | some (c, r) => (decodeUtf8Loop fuel r).map (c :: ·)
    | none => none

/-- Strict UTF-8 decoding, Python `bytes.decode("utf-8")`:
`none` means `UnicodeDecodeError`. -/
def decodeUtf8 (raw : List Nat) : Option (List Char) :=
  decodeUtf8Loop raw.length raw

/-- Does the byte list start with the two given bytes? -/
def startsWith2 (a b : Nat) : List Nat → Bool
  | x :: y :: _ => x = a && y = b
  | _ => false

/-- Does the byte list start with the three given bytes? -/
def startsWith3 (a b c : Nat) : List Nat → Bool
  | x :: y :: z :: _ => x = a && y = b && z = c
  | _ => false

/-- Python `bytes.decode("utf-8-sig")`: strip one UTF-8 byte-order mark if
present, then strict UTF-8. -/
def decodeUtf8Sig (raw : List Nat) : Option (List Char) :=
  if startsWith3 0xEF 0xBB 0xBF raw then decodeUtf8 (raw.drop 3) else decodeUtf8 raw

/-- The Unicode replacement character U+FFFD. -/
def replacementChar : Char := Char.ofNat 0xFFFD

/-- Python `bytes.decode("utf-8", errors="replace")`: like `decodeUtf8` but a
position where no valid sequence starts contributes a U+FFFD replacement
character and decoding resumes at the next byte.  (CPython replaces per
maximal subpart rather than per byte; both are total, which is the only
property of the fallback used below.)  Fuel as in `decodeUtf8Loop`. -/
def decodeUtf8ReplaceLoop : Nat → List Nat → List Char
  | _, [] => []
  | 0, _ :: _ => []
  | fuel + 1, b1 :: rest =>
    match utf8DecodeOne (b1 :: rest) with
    | some (c, r) => c :: decodeUtf8ReplaceLoop fuel r
    | none => replacementChar :: decodeUtf8ReplaceLoop fuel rest

def decodeUtf8Replace (raw : List Nat) : List Char :=
  decodeUtf8ReplaceLoop raw.length raw

/-! ## UTF-16 codecs (`"utf-16"`, `"utf-16-le"`, `"utf-16-be"`) -/

/-- Little-endian byte pairing into 16-bit code units; `none` on odd length
(Python: `UnicodeDecodeError: truncated data`). -/
def utf16UnitsLE : List Nat → Option (List Nat)
  | [] => some []
  | [_] => none
  | a :: b :: rest => (utf16UnitsLE rest).map ((b * 0x100 + a) :: ·)

/-- Big-endian byte pairing into 16-bit code units. -/
def utf16UnitsBE : List Nat → Option (List Nat)
  | [] => some []
  | [_] => none
  | a :: b :: rest => (utf16UnitsBE rest).map ((a * 0x100 + b) :: ·)

/-- Take one scalar value off a 16-bit code-unit sequence, pairing a high
surrogate with the following low surrogate; `none` on an unpaired surrogate
(or empty input). -/
def utf16TakeOne : List Nat → Option (Char × List Nat)
  | [] => none
  | u :: rest =>
    if 0xD800 ≤ u && u ≤ 0xDBFF then
      match rest with
      | v :: rest2 =>
        if 0xDC00 ≤ v && v ≤ 0xDFFF then
          some (Char.ofNat (0x10000 + (u - 0xD800) * 0x400 + (v - 0xDC00)), rest2)
        else none
      | [] => none
    else if 0xDC00 ≤ u && u ≤ 0xDFFF then none
    else some (Char.ofNat u, rest)

/-- Combining loop (fuel only makes the recursion structural, as in
`decodeUtf8Loop`; each step consumes at least one code unit). -/
def combineSurrogatesLoop : Nat → List Nat → Option (List Char)
  | _, [] => some []
  | 0, _ :: _ => none
  | fuel + 1, u :: rest =>
    match utf16TakeOne (u :: rest) with
    | some (c, r) => (combineSurrogatesLoop fuel r).map (c :: ·)
    | none => none

/-- Combine a 16-bit code-unit sequence into scalar values, pairing
surrogates; `none` on an unpaired surrogate. -/
def combineSurrogates (units : List Nat) : Option (List Char) :=
  combineSurrogatesLoop units.length units

/-- Python `bytes.decode("utf-16-le")` (does not consume a byte-order mark). -/
def decodeUtf16LE (raw : List Nat) : Option (List Char) :=
  (utf16UnitsLE raw).bind combineSurrogates

/-- Python `bytes.decode("utf-16-be")`. -/
def decodeUtf16BE (raw : List Nat) : Option (List Char) :=
  (utf16UnitsBE raw).bind combineSurrogates

/-- Python `bytes.decode("utf-16")`: consume a byte-order mark when present
and decode in the indicated order; with no mark, use the machine's native
order, which is little-endian on the targeted hosts. -/
def pyDecodeUtf16 (raw : List Nat) : Option (List Char) :=
  if startsWith2 0xFF 0xFE raw then decodeUtf16LE (raw.drop 2)
  else if startsWith2 0xFE 0xFF raw then decodeUtf16BE (raw.drop 2)
  else decodeUtf16LE raw

/-- UTF-16LE encoding of one scalar value (used only to state properties). -/
def encodeUtf16LEChar (c : Char) : List Nat :=
  let n := c.toNat
  if n < 0x10000 then [n % 0x100, n / 0x100]
  else
    let m := n - 0x10000
    let hi := 0xD800 + m / 0x400
    let lo := 0xDC00 + m % 0x400
    [hi % 0x100, hi / 0x100, lo % 0x100, lo / 0x100]

/-- UTF-16LE encoding of a string of scalar values. -/
def encodeUtf16LE : List Char → List Nat
  | [] => []
  | c :: cs => encodeUtf16LEChar c ++ encodeUtf16LE cs

/-! ## `_decode_stream` and `_ensure_text` -/

/-- Does the buffer trigger the UTF-16 heuristic of `_decode_stream`
(`raw.startswith(b"\xff\xfe") or raw.startswith(b"\xfe\xff") or b"\x00" in raw`)? -/
def utf16Hint (raw : List Nat) : Bool :=
  startsWith2 0xFF 0xFE raw || startsWith2 0xFE 0xFF raw || decide (0 ∈ raw)

/-- Try a list of decoders in order, returning the first success. -/
def tryDecodes : List (List Nat → Option (List Char)) → List Nat → Option (List Char)
  | [], _ => none
  | f :: fs, raw =>
    match f raw with
    | some text => some text
    | none => tryDecodes fs raw

/-- `_decode_stream(raw)` from `server.py`.  `preferred` is the decoder of
`locale.getpreferredencoding(False)` when that value is non-empty (the Python
code appends its name to the candidate list; the `seen`-set dedup only skips
re-running an identical decoder, which cannot change the first success).
`none` would mean an escaped exception; the final branch — Python's
`raw.decode("utf-8", errors="replace")` — always succeeds. -/
def _decode_stream (preferred : Option (List Nat → Option (List Char)))
    (raw : List Nat) : Option (List Char) :=
  if raw = [] then some []
  else
    let encodings :=
      (if utf16Hint raw then [pyDecodeUtf16, decodeUtf16LE, decodeUtf16BE] else [])
        ++ [decodeUtf8Sig, decodeUtf8]
        ++ (match preferred with | some f => [f] | none => [])
    match tryDecodes encodings raw with
    | some text => some (lstripFeff text)
    | none => some (decodeUtf8Replace raw)

/-- A value read from a subprocess stream: `None`, already text, or bytes.
(`_ensure_text` also stringifies any other object; the streams of
`subprocess.run` and `TimeoutExpired` only carry these three shapes.) -/
inductive PyData
  | noneD
  | strD (s : String)
  | bytesD (b : List Nat)
  deriving DecidableEq

/-- `_ensure_text(data)` from `server.py`: normalize `bytes`/`str`/`None` to
text.  `if not data` is Python falsiness: `None`, `""` and `b""` all yield
the empty string. -/
def _ensure_text (preferred : Option (List Nat → Option (List Char))) :
    PyData → Option String
  | .noneD => some ""
  | .strD s => if s.data = [] then some "" else some s
  | .bytesD b => if b = [] then some "" else (_decode_stream preferred b).map (⟨·⟩)

/-! ## Command validation and `tool_ps_run` -/

/-- The `command` argument of `tool_ps_run`/` _validate_command`: the Python
value is arbitrary; behaviour only depends on whether it is a `str`. -/
inductive PsRunArg
  | ofStr (s : String)
  | nonStr
  deriving DecidableEq

/-- `_validate_command(command)` from `server.py`, returning
`(error, command_str)` exactly as the Python function does. -/
def _validate_command (env : String → Option String) (command : PsRunArg) :
    Option String × Option String :=
  match command with
  | .nonStr => (some "error: invalid-command: command must be a string", none)
  | .ofStr s =>
    if pyStrip s = "" then
      (some "error: invalid-command: command must not be empty", none)
    else
      let maxChars := _max_command_chars env
      if (s.length : Int) > maxChars then
        (some ("error: invalid-command: command exceeds " ++ toString maxChars
          ++ " characters"), none)
      else (none, some s)

/-- `_resolve_powershell_path()` from `server.py` (`if path:` is Python
truthiness, i.e. set and non-empty). -/
def DEFAULT_POWERSHELL_PATH : String :=
  "C:\\\\Windows\\\\System32\\\\WindowsPowerShell\\\\v1.0\\\\powershell.exe"

def _resolve_powershell_path (env : String → Option String) : String :=
  match env "LMSPS_POWERSHELL_PATH" with
  | some path =>
    if path ≠ "" then path
    else
      match env "LMSPS_PWSH" with
      | some legacy => if legacy ≠ "" then legacy else DEFAULT_POWERSHELL_PATH
      | none => DEFAULT_POWERSHELL_PATH
  | none =>
    match env "LMSPS_PWSH" with
    | some legacy => if legacy ≠ "" then legacy else DEFAULT_POWERSHELL_PATH
    | none => DEFAULT_POWERSHELL_PATH

/-- `_build_powershell_args(exe, command)` from `server.py`. -/
def _build_powershell_args (exe command : String) : List String :=
  [exe, "-NoLogo", "-NoProfile", "-NonInteractive", "-ExecutionPolicy", "Bypass",
   "-Command", command]

/-- What `subprocess.run` did: returned a `CompletedProcess`, raised
`TimeoutExpired` (whose `stdout`/`stderr` may be `None` or bytes), or raised
some other exception `ename` with message `emsg`. -/
inductive SpawnOutcome
  | completed (stdout stderr : PyData) (returncode : Int)
  | timedOut (stdout stderr : PyData)
  | raised (ename emsg : String)
  deriving DecidableEq

/-- The environment `tool_ps_run` runs in: `os.environ`, the locale-preferred
decoder (if any), whether writes to the boot log succeed, and the stored
working directory. -/
structure Ctx where
  env : String → Option String
  preferred : Option (List Nat → Option (List Char))
  logOk : Bool
  cwd : String

/-- The observable outcome of a Python call: a returned value or an escaped
exception. -/
inductive PyResult
  | ok (s : String)
  | exn (e : String)
  deriving DecidableEq

/-- `parts` as built in both branches of `tool_ps_run`: `[stdout?] + [stderr?]`
with empty streams skipped (`if stdout: parts.append(stdout)`...). -/
def _parts (stdout stderr : String) : List String :=
  (if stdout ≠ "" then [stdout] else []) ++ (if stderr ≠ "" then [stderr] else [])

/-- The `out` value of the normal-completion branch of `tool_ps_run`:
the newline-join of the non-empty streams, or a synthesized placeholder. -/
def completedOut (stdout stderr : String) (returncode : Int) : String :=
  let parts := _parts stdout stderr
  if parts ≠ [] then String.intercalate "\n" parts
  else if returncode = 0 then "(ok)" else "(exit " ++ toString returncode ++ ")"

/-- The message of the `TimeoutExpired` branch of `tool_ps_run`. -/
def timeoutMsg (t n : Int) (stdout stderr : String) : String :=
  let decoded := String.intercalate "\n" (_parts stdout stderr)
  let msg := "timeout after " ++ toString t ++ "s"
  if decoded ≠ "" then
    let stripped := pyStrip decoded
    if stripped ≠ "" then msg ++ "\npartial output:\n" ++ _trim stripped n else msg
  else msg

/-- `tool_ps_run(command, timeout_sec, trim_chars)` from `server.py`.

Control flow mirrors the source: validation failure is logged and returned;
otherwise limits are resolved, a start line is logged, the process is run and
its outcome handled.  `_log` has no handler of its own, so when the log is
broken (`logOk = false`) the first `_log` call raises `OSError`: before the
`try` block (the `ps_run invalid` / `ps_run start` lines) it escapes directly;
inside the `try` (the `ps_run done` line) it is caught by `except Exception`,
whose own `_log` then raises and escapes; inside the `except` clauses (the
`ps_run timeout` / `ps_run error` lines) it escapes directly. -/
def tool_ps_run (ctx : Ctx) (spawn : SpawnOutcome) (command : PsRunArg)
    (timeout_sec trim_chars : CoerceArg) : PyResult :=
  match _validate_command ctx.env command with
  | (some error, _) =>
    if ctx.logOk then .ok error else .exn "OSError"
  | (none, some command_str) =>
    let exe := _resolve_powershell_path ctx.env
    let limits := _command_limits ctx.env
    let t := _coerce_positive_int timeout_sec limits.1
    let n := _coerce_positive_int trim_chars limits.2
    let _args := _build_powershell_args exe command_str
    if ctx.logOk then
      match spawn with
      | .completed so se rc =>
        match _ensure_text ctx.preferred so, _ensure_text ctx.preferred se with
        | some stdout, some stderr => .ok (_trim (completedOut stdout stderr rc) n)
        | _, _ => .exn "UnicodeDecodeError"
      | .timedOut so se =>
        match _ensure_text ctx.preferred so, _ensure_text ctx.preferred se with
        | some stdout, some stderr => .ok (timeoutMsg t n stdout stderr)
        | _, _ => .exn "UnicodeDecodeError"
      | .raised ename emsg => .ok ("error: " ++ ename ++ ": " ++ emsg)
    else .exn "OSError"
  | (none, none) => .exn "unreachable"

/-! ## Working-directory tools (`tool_cwd`, `tool_cd`)

`os.path` is modelled POSIX-flavoured: `/` stands for the host's separator,
`isabs` is a leading separator, `normpath` collapses `.`/`..`/empty
components.  Windows drive-letter handling is not modelled; no property below
depends on it. -/

/-- The mutable `_STATE` of the server (the `env` overlay is untouched by the
operations verified here but kept for shape). -/
structure LState where
  cwd : String
  envOverlay : List (String × String)
  deriving DecidableEq

def tool_cwd (st : LState) : String := st.cwd

/-- `os.path.isabs`. -/
def isabs (p : String) : Bool :=
  match p.data with
  | c :: _ => c = '/'
  | [] => false

/-- `os.path.join(a, b)` for a single right argument. -/
def pyJoin (a b : String) : String :=
  if isabs b then b
  else if a = "" || a.data.getLast? = some '/' then a ++ b
  else a ++ "/" ++ b

/-- Component processing of `os.path.normpath`: drop empty and `.` parts,
let `..` pop a previous real component (at the root, `..` disappears; in a
relative path, leading `..`s pile up). -/
def normComps (isabsolute : Bool) (comps : List String) : List String :=
  (comps.foldl (fun acc c =>
    if c = "" || c = "." then acc
    else if c = ".." then
      match acc with
      | [] => if isabsolute then [] else [".."]
      | p :: r => if p = ".." then c :: acc else r
    else c :: acc) []).reverse

/-- Split a character list on `/` (the list of path components, like Python
`p.split("/")`). -/
def splitSep : List Char → List (List Char)
  | [] => [[]]
  | c :: rest =>
    if c = '/' then [] :: splitSep rest
    else
      match splitSep rest with
      | h :: t => (c :: h) :: t
      | [] => [[c]]

/-- `os.path.normpath`. -/
def normpath (p : String) : String :=
  let a := isabs p
  let body := String.intercalate "/" (normComps a ((splitSep p.data).map (⟨·⟩)))
  if a then (if body = "" then "/" else "/" ++ body)
  else (if body = "" then "." else body)

/-- `os.path.abspath(p)`: resolve against the process's startup directory if
relative, then normalize. -/
def abspath (processCwd p : String) : String :=
  if isabs p then normpath p else normpath (pyJoin processCwd p)

/-- The target `new` computed by `tool_cd`:
`path if os.path.isabs(path) else os.path.abspath(os.path.join(_STATE["cwd"], path))`. -/
def cdTarget (processCwd cwd path : String) : String :=
  if isabs path then path else abspath processCwd (pyJoin cwd path)

/-- `tool_cd(path)` from `server.py`, paired with the state after the call:
raises `FileNotFoundError` when the target is not a directory (leaving the
state untouched), otherwise commits and returns the normalized target. -/
def tool_cd (isdir : String → Bool) (processCwd : String) (st : LState)
    (path : String) : PyResult × LState :=
  let new := cdTarget processCwd st.cwd path
  if isdir new then
    (.ok (normpath new), { st with cwd := normpath new })
  else
    (.exn ("FileNotFoundError: " ++ new), st)

/-! ## General lemmas -/

theorem toNat_ofNat_valid {n : Nat} (h : n.isValidChar) : (Char.ofNat n).toNat = n := by
  unfold Char.ofNat
  rw [dif_pos h]
  rfl

theorem validChar_of_lt {n : Nat} (h : n < 0xD800) : n.isValidChar := Or.inl h

theorem ofNat_ne_of_ne {a b : Nat} (ha : a.isValidChar) (hb : b.isValidChar)
    (h : a ≠ b) : Char.ofNat a ≠ Char.ofNat b := by
  intro hc
  exact h (by rw [← toNat_ofNat_valid ha, ← toNat_ofNat_valid hb, hc])

theorem char_toNat_valid (c : Char) : c.toNat.isValidChar := c.valid

theorem pyStrip_empty : pyStrip "" = "" := rfl

theorem tryDecodes_cons_some {f : List Nat → Option (List Char)}
    {fs : List (List Nat → Option (List Char))} {raw : List Nat} {t : List Char}
    (h : f raw = some t) : tryDecodes (f :: fs) raw = some t := by
  simp [tryDecodes, h]

theorem tryDecodes_cons_none {f : List Nat → Option (List Char)}
    {fs : List (List Nat → Option (List Char))} {raw : List Nat}
    (h : f raw = none) : tryDecodes (f :: fs) raw = tryDecodes fs raw := by
  simp [tryDecodes, h]

/-! ## Totality of the normalizer (claim C2) -/

theorem decodeStream_total (preferred : Option (List Nat → Option (List Char)))
    (raw : List Nat) : ∃ t, _decode_stream preferred raw = some t := by
  unfold _decode_stream
  split
  · exact ⟨[], rfl⟩
  · split
    all_goals split
    all_goals dsimp only
    all_goals split
    all_goals exact ⟨_, rfl⟩

theorem ensureText_total (preferred : Option (List Nat → Option (List Char)))
    (d : PyData) : ∃ s, _ensure_text preferred d = some s := by
  cases d with
  | noneD => exact ⟨"", rfl⟩
  | strD s =>
    by_cases h : s.data = []
    · exact ⟨"", by simp [_ensure_text, h]⟩
    · exact ⟨s, by simp [_ensure_text, h]⟩
  | bytesD b =>
    by_cases h : b = ([] : List Nat)
    · exact ⟨"", by simp [_ensure_text, h]⟩
    · obtain ⟨t, ht⟩ := decodeStream_total preferred b
      exact ⟨⟨t⟩, by simp [_ensure_text, h, ht]⟩

/-- C2: the encoding normalizer is total: for every byte sequence (and every
locale-preferred decoder), `_decode_stream` produces a text string rather than
raising — the final permissive fallback always succeeds — and `_ensure_text`
likewise never fails on any stream value. -/
theorem decode_stream_never_raises :
    ∀ (preferred : Option (List Nat → Option (List Char))),
      (∀ raw : List Nat, ∃ t, _decode_stream preferred raw = some t) ∧
      (∀ d : PyData, ∃ s, _ensure_text preferred d = some s) :=
  fun preferred => ⟨decodeStream_total preferred, ensureText_total preferred⟩

/-! ## Concrete instances used by witnesses -/

/-- An empty environment: every configuration variable unset (all defaults). -/
def envEmpty : String → Option String := fun _ => none

/-- An environment configuring a maximum command length of 100. -/
def envMax100 : String → Option String := fun name =>
  if name = "LMSPS_MAX_COMMAND_CHARS" then some "100" else none

/-- A healthy context: default configuration, no locale decoder, working log. -/
def ctxW : Ctx := ⟨envEmpty, none, true, "C:/work"⟩

/-- A context whose diagnostic-log writes raise `OSError`. -/
def ctxBadLog : Ctx := ⟨envEmpty, none, false, "C:/work"⟩

/-- A context with a working log and a 100-character command limit. -/
def ctxMax100 : Ctx := ⟨envMax100, none, true, "C:/work"⟩

/-! ## The result trimmer (claim C8) -/

/-- C8: for every string `S` and positive bound `N`: when `len(S) ≤ N`,
`_trim` returns `S` unchanged; otherwise it returns the first `N` characters
of `S` followed by the marker stating exactly `len(S) − N` characters removed.
All lengths count characters (`String.length`/`List Char`), not bytes. -/
theorem trim_spec (s : String) (N : Int) (hN : 0 < N) :
    ((s.length : Int) ≤ N → _trim s N = s) ∧
    ((s.length : Int) > N →
      (_trim s N).data = s.data.take N.toNat
        ++ ("\n...[trimmed " ++ toString ((s.length : Int) - N) ++ " chars]").data) := by
  constructor
  · intro h
    simp [_trim, h]
  · intro h
    have h' : ¬ (s.length : Int) ≤ N := by omega
    simp [_trim, h', pySliceTo, le_of_lt hN, String.data_append]

theorem trim_spec_witness :
    _trim "Verification" 12 = "Verification" ∧
    (_trim "Verification" 4).data = "Verification".data.take (4 : Int).toNat
      ++ ("\n...[trimmed " ++ toString ((("Verification".length : Nat) : Int) - 4)
          ++ " chars]").data :=
  ⟨(trim_spec "Verification" 12 (by decide)).1 (by decide),
   (trim_spec "Verification" 4 (by decide)).2 (by decide)⟩

/-! ## Limits are always positive (claim C10) -/

theorem getEnvInt_min_le (env : String → Option String) (name : String)
    (d m : Int) (hm : m ≤ d) : m ≤ _get_env_int env name d (some m) := by
  unfold _get_env_int
  cases env name with
  | none => exact hm
  | some raw =>
    dsimp only
    cases pyInt raw with
    | none => exact hm
    | some v =>
      dsimp only
      split <;> omega

theorem coerce_positive (v : CoerceArg) (f : Int) (hf : 1 ≤ f) :
    1 ≤ _coerce_positive_int v f := by
  cases v with
  | noneA => exact hf
  | badA => exact hf
  | intA i =>
    unfold _coerce_positive_int
    split <;> omega

/-- C10: a `timeout_sec`/`trim_chars` argument that is `None`, not
`int`-convertible, zero or negative silently falls back to the
environment-configured default (30 s / 500 chars when unset, clamped to at
least 1), so the effective limits used by `tool_ps_run` are always positive;
with a valid command (and a working log) no such argument makes `tool_ps_run`
fail to return a result. -/
theorem ps_run_limits_positive :
    ∀ (env : String → Option String) (ts tc : CoerceArg),
      1 ≤ _coerce_positive_int ts (_command_limits env).1 ∧
      1 ≤ _coerce_positive_int tc (_command_limits env).2 ∧
      _command_limits envEmpty = (30, 500) ∧
      (∀ (ctx : Ctx) (spawn : SpawnOutcome) (s : String),
        ctx.logOk = true →
        _validate_command ctx.env (.ofStr s) = (none, some s) →
        ∃ res, tool_ps_run ctx spawn (.ofStr s) ts tc = .ok res) := by
  intro env ts tc
  refine ⟨coerce_positive ts _ (getEnvInt_min_le env _ 30 1 (by omega)),
          coerce_positive tc _ (getEnvInt_min_le env _ 500 1 (by omega)),
          rfl, ?_⟩
  intro ctx spawn s hlog hval
  cases spawn with
  | completed so se rc =>
    obtain ⟨o1, h1⟩ := ensureText_total ctx.preferred so
    obtain ⟨o2, h2⟩ := ensureText_total ctx.preferred se
    refine ⟨_trim (completedOut o1 o2 rc)
      (_coerce_positive_int tc (_command_limits ctx.env).2), ?_⟩
    simp [tool_ps_run, hval, hlog, h1, h2]
  | timedOut so se =>
    obtain ⟨o1, h1⟩ := ensureText_total ctx.preferred so
    obtain ⟨o2, h2⟩ := ensureText_total ctx.preferred se
    refine ⟨timeoutMsg (_coerce_positive_int ts (_command_limits ctx.env).1)
      (_coerce_positive_int tc (_command_limits ctx.env).2) o1 o2, ?_⟩
    simp [tool_ps_run, hval, hlog, h1, h2]
  | raised ename emsg =>
    refine ⟨"error: " ++ ename ++ ": " ++ emsg, ?_⟩
    simp [tool_ps_run, hval, hlog]

theorem ps_run_limits_positive_witness :
    1 ≤ _coerce_positive_int (.intA (-7)) (_command_limits envEmpty).1 ∧
    ∃ res, tool_ps_run ctxW (.completed .noneD .noneD 0) (.ofStr "dir")
      (.intA (-7)) (.intA 0) = .ok res :=
  ⟨(ps_run_limits_positive envEmpty (.intA (-7)) (.intA 0)).1,
   (ps_run_limits_positive envEmpty (.intA (-7)) (.intA 0)).2.2.2 ctxW
     (.completed .noneD .noneD 0) "dir" rfl (by decide)⟩

/-! ## Command validation (claim C6) -/

/-- C6: a command that is not a string, is empty after trimming whitespace,
or exceeds the configured maximum length (default 8192, configurable via
`LMSPS_MAX_COMMAND_CHARS`) makes `tool_ps_run` return an invalid-command
rejection naming the reason — citing the configured maximum exactly in the
over-length case — and the result does not depend on the spawn outcome:
no process is launched. -/
theorem ps_run_rejects_invalid (ctx : Ctx) (ts tc : CoerceArg)
    (hlog : ctx.logOk = true) :
    (∀ spawn : SpawnOutcome, tool_ps_run ctx spawn .nonStr ts tc
        = .ok "error: invalid-command: command must be a string") ∧
    (∀ (spawn : SpawnOutcome) (s : String), pyStrip s = "" →
      tool_ps_run ctx spawn (.ofStr s) ts tc
        = .ok "error: invalid-command: command must not be empty") ∧
    (∀ (spawn : SpawnOutcome) (s : String), pyStrip s ≠ "" →
      (s.length : Int) > _max_command_chars ctx.env →
      tool_ps_run ctx spawn (.ofStr s) ts tc
        = .ok ("error: invalid-command: command exceeds "
            ++ toString (_max_command_chars ctx.env) ++ " characters")) := by
  refine ⟨fun spawn => ?_, fun spawn s hs => ?_, fun spawn s hs hlen => ?_⟩
  · simp [tool_ps_run, _validate_command, hlog]
  · simp [tool_ps_run, _validate_command, hs, hlog]
  · simp [tool_ps_run, _validate_command, hs, hlen, hlog]

theorem ps_run_rejects_invalid_witness :
    tool_ps_run ctxW (.completed .noneD .noneD 0) .nonStr .noneA .noneA
      = .ok "error: invalid-command: command must be a string" ∧
    tool_ps_run ctxW (.completed .noneD .noneD 0) (.ofStr "   ") .noneA .noneA
      = .ok "error: invalid-command: command must not be empty" ∧
    tool_ps_run ctxMax100 (.completed .noneD .noneD 0)
      (.ofStr ⟨List.replicate 101 'a'⟩) .noneA .noneA
      = .ok "error: invalid-command: command exceeds 100 characters" := by
  refine ⟨(ps_run_rejects_invalid ctxW .noneA .noneA rfl).1 _,
          (ps_run_rejects_invalid ctxW .noneA .noneA rfl).2.1 _ "   " (by decide), ?_⟩
  have h := (ps_run_rejects_invalid ctxMax100 .noneA .noneA rfl).2.2
    (.completed .noneD .noneD 0) ⟨List.replicate 101 'a'⟩ (by decide) (by decide)
  simpa using h

/-! ## Logging failures are observable (claim C5) -/

/-- C5 (counter-evidence): `_log` has no exception handling and its call
sites in `tool_ps_run` are not individually guarded, so when writing to the
diagnostic log fails, the `OSError` escapes `tool_ps_run` — for a valid
command (the `ps_run start` line raises before `subprocess.run`) and for a
rejected command (the `ps_run invalid` line) alike, contradicting the claim
that a logging failure never changes the result and never propagates. -/
theorem ps_run_log_failure_escapes :
    tool_ps_run ctxBadLog (.completed .noneD .noneD 0) (.ofStr "dir") .noneA .noneA
      = .exn "OSError" ∧
    tool_ps_run ctxBadLog (.completed .noneD .noneD 0) .nonStr .noneA .noneA
      = .exn "OSError" := by
  constructor
  · decide
  · decide

/-! ## Change-directory (claim C9) -/

theorem isabs_append_left {a : String} (b : String) (h : isabs a = true) :
    isabs (a ++ b) = true := by
  unfold isabs at h ⊢
  rw [String.data_append]
  cases hd : a.data with
  | nil => rw [hd] at h; simp at h
  | cons c t => rw [hd] at h; simpa using h

theorem isabs_pyJoin {a : String} (b : String) (h : isabs a = true) :
    isabs (pyJoin a b) = true := by
  unfold pyJoin
  split
  · assumption
  · split
    · exact isabs_append_left b h
    · exact isabs_append_left b (isabs_append_left "/" h)

theorem isabs_normpath {p : String} (h : isabs p = true) :
    isabs (normpath p) = true := by
  unfold normpath
  dsimp only
  rw [h]
  simp only [if_true]
  split
  · decide
  · exact isabs_append_left _ (by decide)

theorem isabs_cdTarget {processCwd cwd path : String} (h : isabs cwd = true) :
    isabs (cdTarget processCwd cwd path) = true := by
  unfold cdTarget
  split
  · assumption
  · unfold abspath
    have hj : isabs (pyJoin cwd path) = true := isabs_pyJoin path h
    rw [if_pos hj]
    exact isabs_normpath hj

/-- C9: `tool_cd` resolves a relative path against the stored working
directory; when the resolved target is not a directory it raises a not-found
error and leaves the stored working directory unchanged; on success the stored
working directory becomes — and the call returns — the normalized target,
which is absolute whenever the stored directory was. -/
theorem tool_cd_spec (isdir : String → Bool) (processCwd : String)
    (st : LState) (path : String) :
    (isabs path = false →
      cdTarget processCwd st.cwd path = abspath processCwd (pyJoin st.cwd path)) ∧
    (isdir (cdTarget processCwd st.cwd path) = false →
      tool_cd isdir processCwd st path
        = (.exn ("FileNotFoundError: " ++ cdTarget processCwd st.cwd path), st)) ∧
    (isdir (cdTarget processCwd st.cwd path) = true →
      tool_cd isdir processCwd st path
        = (.ok (normpath (cdTarget processCwd st.cwd path)),
           { st with cwd := normpath (cdTarget processCwd st.cwd path) })) ∧
    (isabs st.cwd = true → isabs (cdTarget processCwd st.cwd path) = true) := by
  refine ⟨fun h => ?_, fun h => ?_, fun h => ?_, fun h => isabs_cdTarget h⟩
  · unfold cdTarget
    rw [if_neg (by simp [h])]
  · simp [tool_cd, h]
  · simp [tool_cd, h]

theorem tool_cd_spec_witness :
    tool_cd (fun p => p = "/srv/data") "/" ⟨"/srv", []⟩ "data"
      = (.ok "/srv/data", ⟨"/srv/data", []⟩) ∧
    tool_cd (fun _ => false) "/" ⟨"/srv", []⟩ "missing"
      = (.exn "FileNotFoundError: /srv/missing", ⟨"/srv", []⟩) := by
  constructor
  · have h := (tool_cd_spec (fun p => p = "/srv/data") "/" ⟨"/srv", []⟩ "data").2.2.1
      (by decide)
    simpa using h
  · have h := (tool_cd_spec (fun _ => false) "/" ⟨"/srv", []⟩ "missing").2.1 rfl
    simpa using h

/-! ## Timeout handling (claim C4) -/

/-- C4: when the spawned process exceeds the effective timeout `t`,
`tool_ps_run` returns a timeout result; its message is exactly
`"timeout after {t}s"` when the captured partial output (possibly
`None`/absent, normalized to text) strips to nothing, and otherwise that
header followed by the trimmed partial output. -/
theorem ps_run_timeout_spec (ctx : Ctx) (so se : PyData) (cmd : String)
    (ts tc : CoerceArg) (stdout stderr : String)
    (hlog : ctx.logOk = true)
    (hval : _validate_command ctx.env (.ofStr cmd) = (none, some cmd))
    (hso : _ensure_text ctx.preferred so = some stdout)
    (hse : _ensure_text ctx.preferred se = some stderr) :
    tool_ps_run ctx (.timedOut so se) (.ofStr cmd) ts tc
      = .ok (timeoutMsg (_coerce_positive_int ts (_command_limits ctx.env).1)
             (_coerce_positive_int tc (_command_limits ctx.env).2) stdout stderr) ∧
    (∀ (t n : Int) (a b : String),
      pyStrip (String.intercalate "\n" (_parts a b)) = "" →
      timeoutMsg t n a b = "timeout after " ++ toString t ++ "s") ∧
    (∀ (t n : Int) (a b : String),
      pyStrip (String.intercalate "\n" (_parts a b)) ≠ "" →
      timeoutMsg t n a b = "timeout after " ++ toString t ++ "s"
        ++ "\npartial output:\n"
        ++ _trim (pyStrip (String.intercalate "\n" (_parts a b))) n) := by
  refine ⟨?_, ?_, ?_⟩
  · simp [tool_ps_run, hval, hlog, hso, hse]
  · intro t n a b h
    by_cases hd : String.intercalate "\n" (_parts a b) = ""
    · simp [timeoutMsg, hd]
    · simp [timeoutMsg, hd, h]
  · intro t n a b h
    have hd : String.intercalate "\n" (_parts a b) ≠ "" := fun he => h (by rw [he]; rfl)
    simp [timeoutMsg, hd, h]

theorem ps_run_timeout_spec_witness :
    tool_ps_run ctxW (.timedOut (.bytesD [104, 105]) .noneD) (.ofStr "sleep")
      .noneA .noneA = .ok "timeout after 30s\npartial output:\nhi" := by
  have h := (ps_run_timeout_spec ctxW (.bytesD [104, 105]) .noneD "sleep"
    .noneA .noneA "hi" "" rfl (by decide) (by decide) rfl).1
  rw [h]
  decide

/-! ## Normal-completion classification (claim C7) -/

/-- C7 (counterexample): the completed-branch output is returned through
`_trim` with the effective trim bound, so with `trim_chars = 1` a run with no
output and exit code 0 does not return the bare placeholder `"(ok)"`. -/
theorem ps_run_placeholder_cex :
    tool_ps_run ctxW (.completed .noneD .noneD 0) (.ofStr "x") .noneA (.intA 1)
      = .ok "(\n...[trimmed 3 chars]" ∧
    PyResult.ok "(\n...[trimmed 3 chars]" ≠ .ok "(ok)" := by
  constructor
  · decide
  · decide

theorem intercalate_pair (a b : String) :
    String.intercalate "\n" [a, b] = a ++ "\n" ++ b := rfl

/-- C7 (amended): on normal completion `tool_ps_run` returns
`_trim(out, n)` where `out` is `"(ok)"` for empty streams and exit 0,
`"(exit N)"` for empty streams and exit `N ≠ 0`, and the two streams joined
by a single newline when both are non-empty; when `out` is no longer than the
effective trim bound (as with the 500-character default and any placeholder),
the returned value is exactly `out`. -/
theorem ps_run_completed_spec (ctx : Ctx) (so se : PyData) (rc : Int)
    (cmd : String) (ts tc : CoerceArg) (stdout stderr : String)
    (hlog : ctx.logOk = true)
    (hval : _validate_command ctx.env (.ofStr cmd) = (none, some cmd))
    (hso : _ensure_text ctx.preferred so = some stdout)
    (hse : _ensure_text ctx.preferred se = some stderr) :
    tool_ps_run ctx (.completed so se rc) (.ofStr cmd) ts tc
      = .ok (_trim (completedOut stdout stderr rc)
             (_coerce_positive_int tc (_command_limits ctx.env).2)) ∧
    (stdout = "" → stderr = "" → rc = 0 → completedOut stdout stderr rc = "(ok)") ∧
    (stdout = "" → stderr = "" → rc ≠ 0 →
      completedOut stdout stderr rc = "(exit " ++ toString rc ++ ")") ∧
    (stdout ≠ "" → stderr ≠ "" →
      completedOut stdout stderr rc = stdout ++ "\n" ++ stderr) ∧
    (∀ (s : String) (n : Int), (s.length : Int) ≤ n → _trim s n = s) := by
  refine ⟨?_, ?_, ?_, ?_, ?_⟩
  · simp [tool_ps_run, hval, hlog, hso, hse]
  · intro h1 h2 h3
    simp [completedOut, _parts, h1, h2, h3]
  · intro h1 h2 h3
    simp [completedOut, _parts, h1, h2, h3]
  · intro h1 h2
    simp [completedOut, _parts, h1, h2, intercalate_pair]
  · intro s n h
    simp [_trim, h]

theorem ps_run_completed_spec_witness :
    tool_ps_run ctxW (.completed .noneD .noneD 5) (.ofStr "fail") .noneA .noneA
      = .ok "(exit 5)" := by
  have h := ps_run_completed_spec ctxW .noneD .noneD 5 "fail" .noneA .noneA "" ""
    rfl (by decide) rfl rfl
  rw [h.1]
  decide

/-! ## ASCII buffers (claim C1) -/

theorem utf8DecodeOne_shrinks {l : List Nat} {c : Char} {r : List Nat}
    (h : utf8DecodeOne l = some (c, r)) : r.length < l.length := by
  match l with
  | [] => simp [utf8DecodeOne] at h
  | b1 :: rest =>
    unfold utf8DecodeOne at h
    repeat' split at h
    all_goals simp_all
    all_goals omega

theorem decodeUtf8Loop_fuel_irrelevant : ∀ (f1 f2 : Nat) (raw : List Nat),
    raw.length ≤ f1 → raw.length ≤ f2 →
    decodeUtf8Loop f1 raw = decodeUtf8Loop f2 raw
  | f1, f2, [], _, _ => by cases f1 <;> cases f2 <;> rfl
  | 0, _, _ :: _, h1, _ => by simp at h1
  | _ + 1, 0, _ :: _, _, h2 => by simp at h2
  | f1 + 1, f2 + 1, b :: rest, h1, h2 => by
    rw [decodeUtf8Loop, decodeUtf8Loop]
    cases hu : utf8DecodeOne (b :: rest) with
    | none => rfl
    | some cr =>
      obtain ⟨c, r⟩ := cr
      have hr := utf8DecodeOne_shrinks hu
      dsimp only
      rw [decodeUtf8Loop_fuel_irrelevant f1 f2 r
        (by simp only [List.length_cons] at h1 hr ⊢; omega)
        (by simp only [List.length_cons] at h2 hr ⊢; omega)]

theorem utf8DecodeOne_ascii {b : Nat} (rest : List Nat) (hb : b < 0x80) :
    utf8DecodeOne (b :: rest) = some (Char.ofNat b, rest) := by
  simp [utf8DecodeOne, hb]

theorem decodeUtf8Loop_ascii : ∀ (fuel : Nat) (raw : List Nat),
    raw.length ≤ fuel → (∀ b ∈ raw, b < 0x80) →
    decodeUtf8Loop fuel raw = some (raw.map Char.ofNat)
  | f, [], _, _ => by cases f <;> rfl
  | 0, b :: rest, h, _ => by simp at h
  | fuel + 1, b :: rest, h, ha => by
    have hb : b < 0x80 := ha b (List.mem_cons_self ..)
    rw [decodeUtf8Loop, utf8DecodeOne_ascii rest hb]
    dsimp only
    rw [decodeUtf8Loop_ascii fuel rest
        (by simp only [List.length_cons] at h; omega)
        (fun x hx => ha x (List.mem_cons_of_mem _ hx))]
    rfl

theorem decodeUtf8_ascii (raw : List Nat) (h : ∀ b ∈ raw, b < 0x80) :
    decodeUtf8 raw = some (raw.map Char.ofNat) :=
  decodeUtf8Loop_ascii raw.length raw le_rfl h

theorem startsWith2_false_of_ascii {x y : Nat} {raw : List Nat}
    (h : ∀ b ∈ raw, b < 0x80) (hx : 0x80 ≤ x) : startsWith2 x y raw = false := by
  match raw with
  | [] => rfl
  | [_] => rfl
  | a :: b :: t =>
    have ha := h a (by simp)
    simp [startsWith2]
    omega

theorem startsWith3_false_of_ascii {x y z : Nat} {raw : List Nat}
    (h : ∀ b ∈ raw, b < 0x80) (hx : 0x80 ≤ x) : startsWith3 x y z raw = false := by
  match raw with
  | [] => rfl
  | [_] => rfl
  | [_, _] => rfl
  | a :: b :: c :: t =>
    have ha := h a (by simp)
    simp [startsWith3]
    omega

theorem utf16Hint_eq_false {raw : List Nat} (h : ∀ b ∈ raw, b < 0x80)
    (h0 : 0 ∉ raw) : utf16Hint raw = false := by
  unfold utf16Hint
  rw [startsWith2_false_of_ascii h (by omega), startsWith2_false_of_ascii h (by omega)]
  simp [h0]

theorem utf16UnitsLE_odd : ∀ (raw : List Nat), raw.length % 2 = 1 →
    utf16UnitsLE raw = none
  | [], h => by simp at h
  | [_], _ => rfl
  | a :: b :: rest, h => by
    have hr : rest.length % 2 = 1 := by
      simp only [List.length_cons] at h
      omega
    simp [utf16UnitsLE, utf16UnitsLE_odd rest hr]

theorem utf16UnitsBE_odd : ∀ (raw : List Nat), raw.length % 2 = 1 →
    utf16UnitsBE raw = none
  | [], h => by simp at h
  | [_], _ => rfl
  | a :: b :: rest, h => by
    have hr : rest.length % 2 = 1 := by
      simp only [List.length_cons] at h
      omega
    simp [utf16UnitsBE, utf16UnitsBE_odd rest hr]

theorem decodeUtf16LE_odd {raw : List Nat} (h : raw.length % 2 = 1) :
    decodeUtf16LE raw = none := by
  unfold decodeUtf16LE
  rw [utf16UnitsLE_odd raw h]
  rfl

theorem decodeUtf16BE_odd {raw : List Nat} (h : raw.length % 2 = 1) :
    decodeUtf16BE raw = none := by
  unfold decodeUtf16BE
  rw [utf16UnitsBE_odd raw h]
  rfl

theorem pyDecodeUtf16_no_bom {raw : List Nat}
    (h1 : startsWith2 0xFF 0xFE raw = false)
    (h2 : startsWith2 0xFE 0xFF raw = false) :
    pyDecodeUtf16 raw = decodeUtf16LE raw := by
  simp [pyDecodeUtf16, h1, h2]

theorem lstripFeff_noop : ∀ {l : List Char},
    (∀ c, l.head? = some c → c ≠ Char.ofNat 0xFEFF) → lstripFeff l = l
  | [], _ => rfl
  | c :: rest, h => by simp [lstripFeff, h c rfl]

theorem lstripFeff_map_ascii {raw : List Nat} (h : ∀ b ∈ raw, b < 0x80) :
    lstripFeff (raw.map Char.ofNat) = raw.map Char.ofNat := by
  cases raw with
  | nil => rfl
  | cons b rest =>
    apply lstripFeff_noop
    intro c hc
    simp only [List.map_cons, List.head?_cons, Option.some.injEq] at hc
    subst hc
    have hb : b < 0x80 := h b (List.mem_cons_self ..)
    exact ofNat_ne_of_ne (validChar_of_lt (by omega))
      (by right; exact ⟨by omega, by omega⟩) (by omega)

/-- C1 (amended): an all-ASCII buffer decodes to exactly its UTF-8 reading,
provided no NUL byte occurs in a buffer of even length (an even-length buffer
containing a NUL trips the UTF-16 heuristic and is decoded as UTF-16 instead). -/
theorem decode_stream_ascii (preferred : Option (List Nat → Option (List Char)))
    (raw : List Nat) (hascii : ∀ b ∈ raw, b < 0x80)
    (hok : 0 ∉ raw ∨ raw.length % 2 = 1) :
    _decode_stream preferred raw = some (raw.map Char.ofNat) ∧
    decodeUtf8 raw = some (raw.map Char.ofNat) := by
  have hutf8 := decodeUtf8_ascii raw hascii
  refine ⟨?_, hutf8⟩
  have hsig : decodeUtf8Sig raw = some (raw.map Char.ofNat) := by
    unfold decodeUtf8Sig
    rw [startsWith3_false_of_ascii hascii (by omega)]
    simpa using hutf8
  have hlst := lstripFeff_map_ascii hascii
  by_cases hemp : raw = []
  · subst hemp
    simp [_decode_stream]
  · unfold _decode_stream
    rw [if_neg hemp]
    rcases hok with h0 | hodd
    · have hint := utf16Hint_eq_false hascii h0
      simp only [hint, Bool.false_eq_true, if_false, List.nil_append, List.cons_append,
        List.append_nil]
      rw [tryDecodes_cons_some hsig]
      simp [hlst]
    · by_cases hint : utf16Hint raw = true
      · have hBOM1 := startsWith2_false_of_ascii hascii (x := 0xFF) (y := 0xFE) (by omega)
        have hBOM2 := startsWith2_false_of_ascii hascii (x := 0xFE) (y := 0xFF) (by omega)
        have hpy : pyDecodeUtf16 raw = none := by
          rw [pyDecodeUtf16_no_bom hBOM1 hBOM2]
          exact decodeUtf16LE_odd hodd
        simp only [hint, if_true, List.cons_append, List.nil_append]
        rw [tryDecodes_cons_none hpy, tryDecodes_cons_none (decodeUtf16LE_odd hodd),
          tryDecodes_cons_none (decodeUtf16BE_odd hodd), tryDecodes_cons_some hsig]
        simp [hlst]
      · have hint' : utf16Hint raw = false := by
          cases hu : utf16Hint raw
          · rfl
          · exact absurd hu hint
        simp only [hint', Bool.false_eq_true, if_false, List.nil_append, List.cons_append,
          List.append_nil]
        rw [tryDecodes_cons_some hsig]
        simp [hlst]

/-- C1 (counterexample): `[0x61, 0x00]` consists only of ASCII bytes, but the
NUL byte trips the UTF-16 heuristic: the buffer decodes as UTF-16LE to `"a"`,
not to its two-character UTF-8 reading `"a\x00"`. -/
theorem decode_stream_ascii_cex :
    _decode_stream none [0x61, 0x00] = some ['a'] ∧
    decodeUtf8 [0x61, 0x00] = some ['a', Char.ofNat 0] ∧
    (['a'] : List Char) ≠ ['a', Char.ofNat 0] := by
  refine ⟨by decide, by decide, by decide⟩

theorem decode_stream_ascii_witness :
    _decode_stream none [104, 101, 108, 108, 111]
      = some ([104, 101, 108, 108, 111].map Char.ofNat) :=
  (decode_stream_ascii none [104, 101, 108, 108, 111] (by decide)
    (Or.inl (by decide))).1

/-! ## UTF-16LE round trip (claim C3) -/

/-- The UTF-16 code units of one scalar value. -/
def unitsOfChar (c : Char) : List Nat :=
  if c.toNat < 0x10000 then [c.toNat]
  else [0xD800 + (c.toNat - 0x10000) / 0x400, 0xDC00 + (c.toNat - 0x10000) % 0x400]

/-- The UTF-16 code units of a string. -/
def codeUnits : List Char → List Nat
  | [] => []
  | c :: cs => unitsOfChar c ++ codeUnits cs

theorem char_valid_tri (c : Char) :
    c.toNat < 0xD800 ∨ (0xDFFF < c.toNat ∧ c.toNat < 0x110000) := c.valid

theorem utf16UnitsLE_encode : ∀ (T : List Char),
    utf16UnitsLE (encodeUtf16LE T) = some (codeUnits T)
  | [] => rfl
  | c :: cs => by
    have ih := utf16UnitsLE_encode cs
    by_cases hlt : c.toNat < 0x10000
    · have he : encodeUtf16LEChar c = [c.toNat % 0x100, c.toNat / 0x100] := by
        simp [encodeUtf16LEChar, hlt]
      have hc : codeUnits (c :: cs) = c.toNat :: codeUnits cs := by
        simp [codeUnits, unitsOfChar, hlt]
      rw [encodeUtf16LE, he, hc, List.cons_append, List.cons_append, List.nil_append,
        utf16UnitsLE, ih]
      have harith : c.toNat / 0x100 * 0x100 + c.toNat % 0x100 = c.toNat := by omega
      simp [harith]
    · have he : encodeUtf16LEChar c =
          [(0xD800 + (c.toNat - 0x10000) / 0x400) % 0x100,
           (0xD800 + (c.toNat - 0x10000) / 0x400) / 0x100,
           (0xDC00 + (c.toNat - 0x10000) % 0x400) % 0x100,
           (0xDC00 + (c.toNat - 0x10000) % 0x400) / 0x100] := by
        simp only [encodeUtf16LEChar, hlt, if_false]
      have hc : codeUnits (c :: cs)
          = (0xD800 + (c.toNat - 0x10000) / 0x400)
            :: (0xDC00 + (c.toNat - 0x10000) % 0x400) :: codeUnits cs := by
        simp [codeUnits, unitsOfChar, hlt]
      rw [encodeUtf16LE, he, hc, List.cons_append, List.cons_append, List.cons_append,
        List.cons_append, List.nil_append, utf16UnitsLE, utf16UnitsLE, ih]
      have h1 : (0xD800 + (c.toNat - 0x10000) / 0x400) / 0x100 * 0x100
          + (0xD800 + (c.toNat - 0x10000) / 0x400) % 0x100
          = 0xD800 + (c.toNat - 0x10000) / 0x400 := by omega
      have h2 : (0xDC00 + (c.toNat - 0x10000) % 0x400) / 0x100 * 0x100
          + (0xDC00 + (c.toNat - 0x10000) % 0x400) % 0x100
          = 0xDC00 + (c.toNat - 0x10000) % 0x400 := by omega
      simp [h1, h2]

theorem combineLoop_codeUnits : ∀ (T : List Char) (fuel : Nat),
    (codeUnits T).length ≤ fuel →
    combineSurrogatesLoop fuel (codeUnits T) = some T
  | [], f, _ => by cases f <;> rfl
  | c :: cs, fuel, h => by
    have hv := char_valid_tri c
    by_cases hlt : c.toNat < 0x10000
    · have hc : codeUnits (c :: cs) = c.toNat :: codeUnits cs := by
        simp [codeUnits, unitsOfChar, hlt]
      rw [hc] at h ⊢
      cases fuel with
      | zero => simp at h
      | succ f =>
        have ht : utf16TakeOne (c.toNat :: codeUnits cs)
            = some (Char.ofNat c.toNat, codeUnits cs) := by
          have hs1 : (0xD800 ≤ c.toNat && c.toNat ≤ 0xDBFF) = false := by
            simp only [Bool.and_eq_false_iff, decide_eq_false_iff_not, not_le]
            omega
          have hs2 : (0xDC00 ≤ c.toNat && c.toNat ≤ 0xDFFF) = false := by
            simp only [Bool.and_eq_false_iff, decide_eq_false_iff_not, not_le]
            omega
          simp [utf16TakeOne, hs1, hs2]
        rw [combineSurrogatesLoop, ht]
        dsimp only
        rw [combineLoop_codeUnits cs f (by simp only [List.length_cons] at h; omega)]
        simp [Char.ofNat_toNat]
    · have hm : c.toNat < 0x110000 := by
        rcases hv with hv | hv
        · omega
        · exact hv.2
      have hc : codeUnits (c :: cs)
          = (0xD800 + (c.toNat - 0x10000) / 0x400)
            :: (0xDC00 + (c.toNat - 0x10000) % 0x400) :: codeUnits cs := by
        simp [codeUnits, unitsOfChar, hlt]
      rw [hc] at h ⊢
      cases fuel with
      | zero => simp at h
      | succ f =>
        have ht : utf16TakeOne ((0xD800 + (c.toNat - 0x10000) / 0x400)
              :: (0xDC00 + (c.toNat - 0x10000) % 0x400) :: codeUnits cs)
            = some (c, codeUnits cs) := by
          have hs1 : (0xD800 ≤ 0xD800 + (c.toNat - 0x10000) / 0x400
              && 0xD800 + (c.toNat - 0x10000) / 0x400 ≤ 0xDBFF) = true := by
            simp only [Bool.and_eq_true, decide_eq_true_eq]
            omega
          have hs2 : (0xDC00 ≤ 0xDC00 + (c.toNat - 0x10000) % 0x400
              && 0xDC00 + (c.toNat - 0x10000) % 0x400 ≤ 0xDFFF) = true := by
            simp only [Bool.and_eq_true, decide_eq_true_eq]
            omega
          have harith : 0x10000 + (0xD800 + (c.toNat - 0x10000) / 0x400 - 0xD800) * 0x400
              + (0xDC00 + (c.toNat - 0x10000) % 0x400 - 0xDC00) = c.toNat := by
            omega
          simp only [utf16TakeOne, hs1, if_true, hs2, harith, Char.ofNat_toNat]
        rw [combineSurrogatesLoop, ht]
        dsimp only
        rw [combineLoop_codeUnits cs f (by simp only [List.length_cons] at h; omega)]
        rfl

theorem combineSurrogates_codeUnits (T : List Char) :
    combineSurrogates (codeUnits T) = some T :=
  combineLoop_codeUnits T (codeUnits T).length le_rfl

theorem decodeUtf16LE_encode (T : List Char) :
    decodeUtf16LE (encodeUtf16LE T) = some T := by
  unfold decodeUtf16LE
  rw [utf16UnitsLE_encode T]
  simpa using combineSurrogates_codeUnits T

/-- C3 (amended): a buffer carrying the UTF-16LE byte-order mark followed by
the UTF-16LE encoding of a text `T` decodes to exactly `T`, provided `T` does
not itself begin with U+FEFF (`_decode_stream` left-strips every leading
U+FEFF from the decoded text, so such a `T` would lose its leading
characters). -/
theorem decode_stream_utf16_bom (preferred : Option (List Nat → Option (List Char)))
    (T : List Char) (hhead : T.head? ≠ some (Char.ofNat 0xFEFF)) :
    _decode_stream preferred (0xFF :: 0xFE :: encodeUtf16LE T) = some T := by
  have hpy : pyDecodeUtf16 (0xFF :: 0xFE :: encodeUtf16LE T) = some T := by
    unfold pyDecodeUtf16
    rw [if_pos (by simp [startsWith2])]
    simpa using decodeUtf16LE_encode T
  have hint : utf16Hint (0xFF :: 0xFE :: encodeUtf16LE T) = true := by
    simp [utf16Hint, startsWith2]
  have hlst : lstripFeff T = T := by
    apply lstripFeff_noop
    intro c hc heq
    exact hhead (by rw [hc, heq])
  unfold _decode_stream
  rw [if_neg (by simp)]
  simp only [hint, if_true, List.cons_append, List.nil_append]
  rw [tryDecodes_cons_some hpy]
  simp [hlst]

/-- C3 (counterexample): for `T = [U+FEFF]` the decoded text's leading U+FEFF
is stripped, so the normalizer returns the empty string, not `T`. -/
theorem decode_stream_utf16_bom_cex :
    _decode_stream none (0xFF :: 0xFE :: encodeUtf16LE [Char.ofNat 0xFEFF])
      = some [] ∧
    some ([] : List Char) ≠ some [Char.ofNat 0xFEFF] := by
  constructor
  · decide
  · decide

theorem decode_stream_utf16_bom_witness :
    _decode_stream none (0xFF :: 0xFE :: encodeUtf16LE ['h', 'i']) = some ['h', 'i'] :=
  decode_stream_utf16_bom none ['h', 'i'] (by decide)
